import Mathlib

/-!
Verification development for the Liar's Dice solver (`dice.py`).

The source computes, for a bid `(x, y)` ("at least `y` dice show face `x` or
the wildcard face 1") with `n` total dice of `d` faces and a known `hand`,
the exact probability that the bid is true, and uses that calculator to build
a probability table and select optimal next moves under three legality
policies.  Probabilities are modelled in `ℚ` (exact arithmetic); Python
integers are modelled by `ℤ` where subtraction may go negative.
-/

open Finset

/-- `wildcard_value = 1` from the source. -/
def wildcard_value : ℕ := 1

/-- `friendly_die = len([0 for die in hand if die == wildcard_value or die == x])`. -/
def friendly_die (x : ℕ) (hand : List ℕ) : ℕ :=
  (hand.filter (fun die => die == wildcard_value || die == x)).length

/-- `wildcard_p = math.comb(ext_n, i) * (1/d)**i * ((d-1)/d)**(ext_n - i)`. -/
def wildcard_p (d en i : ℕ) : ℚ :=
  (en.choose i : ℚ) * ((1 : ℚ) / (d : ℚ)) ^ i * (((d : ℚ) - 1) / (d : ℚ)) ^ (en - i)

/-- `sub_p = math.comb(ext_n - i, j) * (1/(d-1))**j * ((d-2)/(d-1))**(ext_n-i-j)`,
written with `m = ext_n - i`. -/
def sub_p (d m j : ℕ) : ℚ :=
  (m.choose j : ℚ) * ((1 : ℚ) / ((d : ℚ) - 1)) ^ j *
    (((d : ℚ) - 2) / ((d : ℚ) - 1)) ^ (m - j)

/-- `predict_probability(x, y, n, d, hand)` from the source.

`ext_n = n - len(hand)` and `ext_y = y - friendly_die` are Python integers,
modelled in `ℤ`.  The outer loop `for i in range(0, ext_n + 1)` is empty when
`ext_n < 0`, which `(ext_n + 1).toNat` reproduces.  In the inner loop
`for j in range(ext_y - i, ext_n - i + 1)` both bounds are nonnegative
whenever the loop body runs (`0 ≤ i < ext_y`), so `ℕ` subtraction agrees. -/
def predict_probability (x y n d : ℕ) (hand : List ℕ) : ℚ :=
  let ext_n : ℤ := (n : ℤ) - (hand.length : ℤ)
  let ext_y : ℤ := (y : ℤ) - (friendly_die x hand : ℤ)
  if ext_y ≤ 0 then 1
  else
    let en := ext_n.toNat
    ∑ i in Finset.range ((ext_n + 1).toNat),
      if ext_y ≤ (i : ℤ) then wildcard_p d en i
      else wildcard_p d en i * ∑ j in Finset.Icc (ext_y.toNat - i) (en - i), sub_p d (en - i) j

/-- The two-level conditioning sum in the words of the specification: sum over
`i ∈ [0, externalCount]` of `C(externalCount, i) · (1/d)^i · ((d−1)/d)^(externalCount−i)`
times (`1` if `i ≥ needed`, else the sum over `j ∈ [needed−i, externalCount−i]` of
`C(externalCount−i, j) · (1/(d−1))^j · ((d−2)/(d−1))^(externalCount−i−j)`), where
`externalCount = n − |hand|` and `needed = y − friendly`.  Stated separately from
`predict_probability` so that the two can be compared. -/
def predict_probability_spec (x y n d : ℕ) (hand : List ℕ) : ℚ :=
  let externalCount := n - hand.length
  let needed := y - friendly_die x hand
  ∑ i in Finset.Icc 0 externalCount,
    (externalCount.choose i : ℚ) * ((1 : ℚ) / (d : ℚ)) ^ i *
        (((d : ℚ) - 1) / (d : ℚ)) ^ (externalCount - i) *
      (if needed ≤ i then 1
       else ∑ j in Finset.Icc (needed - i) (externalCount - i),
         ((externalCount - i).choose j : ℚ) * ((1 : ℚ) / ((d : ℚ) - 1)) ^ j *
           (((d : ℚ) - 2) / ((d : ℚ) - 1)) ^ (externalCount - i - j))

/-- `table = [[0 for i in range(d-1)] for j in range(n)]`. -/
def init_table (n d : ℕ) : List (List ℚ) :=
  List.replicate n (List.replicate (d - 1) 0)

/-- `table[i][j] = v` on a list-of-rows table.  The source only ever writes
in range; out-of-range indices leave the table unchanged here. -/
def setCell (t : List (List ℚ)) (i j : ℕ) (v : ℚ) : List (List ℚ) :=
  t.set i ((t.getD i []).set j v)

/-- `table[i][j]`, the probability stored at row `i`, column `j`. -/
def cellVal (table : List (List ℚ)) (c : ℕ × ℕ) : ℚ :=
  (table.getD c.1 []).getD c.2 0

/-- The table-filling loops of `compute_optimal_next_move`:
`for i in range(1, n+1): for j in range(2, d+1): table[i-1][j-2] = predict_probability(j, i, n, d, hand)`,
reindexed by row `i ∈ range n` (count `i+1`) and column `j ∈ range (d-1)` (face `j+2`). -/
def fill_table (n d : ℕ) (hand : List ℕ) : List (List ℚ) :=
  (List.range n).foldl
    (fun t i =>
      (List.range (d - 1)).foldl
        (fun t' j => setCell t' i j (predict_probability (j + 2) (i + 1) n d hand)) t)
    (init_table n d)

/-- Mode I legality for a candidate bid `(x, y)` after `(prev_x, prev_y)`:
`i+1 > prev_y or (j+2 > prev_x and i+1 == prev_y)` with `x = j+2`, `y = i+1`. -/
def legal_I (prev_x prev_y x y : ℕ) : Prop :=
  prev_y < y ∨ (prev_x < x ∧ y = prev_y)

/-- Mode II legality: `j+2 > prev_x or (i+1 > prev_y and j+2 == prev_x)`. -/
def legal_II (prev_x prev_y x y : ℕ) : Prop :=
  prev_x < x ∨ (prev_y < y ∧ x = prev_x)

/-- Mode III legality: `(j+2 > prev_x and i+1 == prev_y) or (i+1 > prev_y and j+2 == prev_x)`. -/
def legal_III (prev_x prev_y x y : ℕ) : Prop :=
  (prev_x < x ∧ y = prev_y) ∨ (prev_y < y ∧ x = prev_x)

instance (px py x y : ℕ) : Decidable (legal_I px py x y) := by
  unfold legal_I; exact inferInstance

instance (px py x y : ℕ) : Decidable (legal_II px py x y) := by
  unfold legal_II; exact inferInstance

instance (px py x y : ℕ) : Decidable (legal_III px py x y) := by
  unfold legal_III; exact inferInstance

/-- The six `best_*` variables of the selector.  An action is `none` for
`"call previous player"` or `some (x, y)` for `f"bid({x}, {y})"`. -/
structure SelState where
  best_I_p : ℚ
  best_I_act : Option (ℕ × ℕ)
  best_II_p : ℚ
  best_II_act : Option (ℕ × ℕ)
  best_III_p : ℚ
  best_III_act : Option (ℕ × ℕ)
deriving Repr, DecidableEq

/-- One iteration of the selection loop body at cell `ij = (i, j)`: the three
independent `if table[i][j] > best_*_p and <legality>` updates of the source. -/
def select_step (prev_x prev_y : ℕ) (table : List (List ℚ)) (s : SelState) (ij : ℕ × ℕ) :
    SelState :=
  let cell := cellVal table ij
  let s1 := if s.best_I_p < cell ∧ legal_I prev_x prev_y (ij.2 + 2) (ij.1 + 1)
    then { s with best_I_p := cell, best_I_act := some (ij.2 + 2, ij.1 + 1) } else s
  let s2 := if s1.best_II_p < cell ∧ legal_II prev_x prev_y (ij.2 + 2) (ij.1 + 1)
    then { s1 with best_II_p := cell, best_II_act := some (ij.2 + 2, ij.1 + 1) } else s1
  if s2.best_III_p < cell ∧ legal_III prev_x prev_y (ij.2 + 2) (ij.1 + 1)
    then { s2 with best_III_p := cell, best_III_act := some (ij.2 + 2, ij.1 + 1) } else s2

/-- The cells visited by `for i in range(len(table)): for j in range(len(table[i]))`,
in row-major order. -/
def cell_indices (table : List (List ℚ)) : List (ℕ × ℕ) :=
  (List.range table.length).flatMap fun i =>
    (List.range (table.getD i []).length).map fun j => (i, j)

/-- The selection loop of `compute_optimal_next_move`: each mode starts from the
baseline `("call previous player", p_liar)` and scans the table. -/
def select_best (prev_x prev_y : ℕ) (p_liar : ℚ) (table : List (List ℚ)) : SelState :=
  (cell_indices table).foldl (select_step prev_x prev_y table)
    ⟨p_liar, none, p_liar, none, p_liar, none⟩

/-- The values computed by `compute_optimal_next_move` (the source prints them). -/
structure MoveResult where
  p_liar : ℚ
  table : List (List ℚ)
  sel : SelState

/-- `compute_optimal_next_move(prev_x, prev_y, n, d, hand)`:
`p_liar = 1 - predict_probability(prev_x, prev_y, n, d, hand)`, the filled
probability table, and the three-mode selection over it. -/
def compute_optimal_next_move (prev_x prev_y n d : ℕ) (hand : List ℕ) : MoveResult :=
  let p_liar := 1 - predict_probability prev_x prev_y n d hand
  let table := fill_table n d hand
  ⟨p_liar, table, select_best prev_x prev_y p_liar table⟩

/-- The domain of table cells, written as pairs `(y, x)` of a count
`y ∈ [1, totalDice]` and a face `x ∈ [2, faceCount]`. -/
def bid_domain (n d : ℕ) : Finset (ℕ × ℕ) :=
  Finset.Icc 1 n ×ˢ Finset.Icc 2 d

/-- The cells of the domain satisfying Mode I's legality predicate. -/
def modeCells_I (n d prev_x prev_y : ℕ) : Finset (ℕ × ℕ) :=
  (bid_domain n d).filter fun c => legal_I prev_x prev_y c.2 c.1

/-- The cells of the domain satisfying Mode II's legality predicate. -/
def modeCells_II (n d prev_x prev_y : ℕ) : Finset (ℕ × ℕ) :=
  (bid_domain n d).filter fun c => legal_II prev_x prev_y c.2 c.1

/-- The cells of the domain satisfying Mode III's legality predicate. -/
def modeCells_III (n d prev_x prev_y : ℕ) : Finset (ℕ × ℕ) :=
  (bid_domain n d).filter fun c => legal_III prev_x prev_y c.2 c.1

/-- The trial loop of `simulate_probability`, over an explicit list of rolls
(one list of rolled faces per iteration, playing the role of
`[random.randint(1, d) for die in range(ext_n)]`).  The state is
`(bid_success_count, wildcard_buckets)` with `wildcard_buckets = [0] * 10`.
The update `wildcard_buckets[wildcard_count] += 1` raises `IndexError` when
`wildcard_count ≥ len(wildcard_buckets)`; that failure is modelled by `none`. -/
def trial_step (x : ℕ) (ext_y : ℤ) (acc : Option (ℕ × List ℕ)) (dice : List ℕ) :
    Option (ℕ × List ℕ) :=
  acc.bind fun st =>
    let x_count : ℕ := (dice.filter (fun die => die == x)).length
    let wildcard_count : ℕ := (dice.filter (fun die => die == wildcard_value)).length
    if ext_y ≤ (x_count : ℤ) + (wildcard_count : ℤ) then
      if wildcard_count < st.2.length then
        some (st.1 + 1, st.2.set wildcard_count (st.2.getD wildcard_count 0 + 1))
      else none
    else some st

/-- The whole trial loop, starting from `bid_success_count = 0` and
`wildcard_buckets = [0] * 10`. -/
def run_trials (x : ℕ) (ext_y : ℤ) (trials : List (List ℕ)) : Option (ℕ × List ℕ) :=
  trials.foldl (trial_step x ext_y) (some (0, List.replicate 10 0))

/-- `simulate_probability(x, y, n, d, hand, iterations)` with the random rolls
made explicit: `trials` is the list of per-iteration roll lists, so
`iterations = trials.length`.  Returns `none` when a bucket update would raise
`IndexError`. -/
def simulate_probability (x y n d : ℕ) (hand : List ℕ) (trials : List (List ℕ)) : Option ℚ :=
  let ext_y : ℤ := (y : ℤ) - (friendly_die x hand : ℤ)
  if ext_y ≤ 0 then some 1
  else (run_trials x ext_y trials).map fun st => (st.1 : ℚ) / (trials.length : ℚ)

/-- The strict-improvement scan of one mode in isolation: state `(best_p, best_act)`,
updated at cell `c` exactly when `v c` strictly exceeds the current best and `c`
is legal. -/
def scan_step (legal : ℕ × ℕ → Prop) [DecidablePred legal] (v : ℕ × ℕ → ℚ)
    (s : ℚ × Option (ℕ × ℕ)) (c : ℕ × ℕ) : ℚ × Option (ℕ × ℕ) :=
  if s.1 < v c ∧ legal c then (v c, some (c.2 + 2, c.1 + 1)) else s

/-! ## Lemmas about the probability calculator -/

lemma sum_wildcard_p (d en : ℕ) (hd : 1 ≤ d) :
    ∑ i in Finset.range (en + 1), wildcard_p d en i = 1 := by
  have hd0 : (d : ℚ) ≠ 0 := Nat.cast_ne_zero.mpr (by omega)
  have key : (1 : ℚ) / d + ((d : ℚ) - 1) / d = 1 := by field_simp
  calc ∑ i in Finset.range (en + 1), wildcard_p d en i
      = ∑ i in Finset.range (en + 1),
          ((1 : ℚ) / d) ^ i * (((d : ℚ) - 1) / d) ^ (en - i) * (en.choose i : ℚ) := by
        refine Finset.sum_congr rfl fun i _ => ?_
        unfold wildcard_p; ring
    _ = ((1 : ℚ) / d + ((d : ℚ) - 1) / d) ^ en := (add_pow _ _ en).symm
    _ = 1 := by rw [key, one_pow]

lemma sum_sub_p (d m : ℕ) (hd : 2 ≤ d) :
    ∑ j in Finset.range (m + 1), sub_p d m j = 1 := by
  have hd1 : (d : ℚ) - 1 ≠ 0 := by
    have : (2 : ℚ) ≤ (d : ℚ) := by exact_mod_cast hd
    intro h; linarith
  have key : (1 : ℚ) / ((d : ℚ) - 1) + ((d : ℚ) - 2) / ((d : ℚ) - 1) = 1 := by
    field_simp; ring
  calc ∑ j in Finset.range (m + 1), sub_p d m j
      = ∑ j in Finset.range (m + 1),
          ((1 : ℚ) / ((d : ℚ) - 1)) ^ j * (((d : ℚ) - 2) / ((d : ℚ) - 1)) ^ (m - j) *
            (m.choose j : ℚ) := by
        refine Finset.sum_congr rfl fun j _ => ?_
        unfold sub_p; ring
    _ = ((1 : ℚ) / ((d : ℚ) - 1) + ((d : ℚ) - 2) / ((d : ℚ) - 1)) ^ m := (add_pow _ _ m).symm
    _ = 1 := by rw [key, one_pow]

lemma wildcard_p_nonneg (d en i : ℕ) (hd : 1 ≤ d) : 0 ≤ wildcard_p d en i := by
  have h1 : (1 : ℚ) ≤ (d : ℚ) := by exact_mod_cast hd
  unfold wildcard_p
  have := Nat.cast_nonneg (α := ℚ) (en.choose i)
  apply mul_nonneg (mul_nonneg this _) <;>
    apply pow_nonneg <;> apply div_nonneg <;> linarith

lemma sub_p_nonneg (d m j : ℕ) (hd : 2 ≤ d) : 0 ≤ sub_p d m j := by
  have h1 : (2 : ℚ) ≤ (d : ℚ) := by exact_mod_cast hd
  unfold sub_p
  have := Nat.cast_nonneg (α := ℚ) (m.choose j)
  apply mul_nonneg (mul_nonneg this _) <;>
    apply pow_nonneg <;> apply div_nonneg <;> linarith

/-- In the interesting case the calculator's value is the sum, over all pairs
`(i, j)` of a wildcard count and a target-face count that together satisfy the
bid, of the probability of that joint outcome. -/
lemma predict_probability_eq_sum_filter (x y n d : ℕ) (hand : List ℕ)
    (hd : 2 ≤ d) (hlen : hand.length ≤ n) (hfy : friendly_die x hand < y) :
    predict_probability x y n d hand =
      ∑ i in Finset.range (n - hand.length + 1),
        ∑ j in (Finset.range (n - hand.length - i + 1)).filter
            (fun j => y - friendly_die x hand ≤ i + j),
          wildcard_p d (n - hand.length) i * sub_p d (n - hand.length - i) j := by
  unfold predict_probability
  have hif : ¬ ((y : ℤ) - (friendly_die x hand : ℤ) ≤ 0) := by omega
  simp only [hif, if_false]
  have h1 : (((n : ℤ) - (hand.length : ℤ)) + 1).toNat = n - hand.length + 1 := by omega
  have h2 : ((n : ℤ) - (hand.length : ℤ)).toNat = n - hand.length := by omega
  have h3 : ((y : ℤ) - (friendly_die x hand : ℤ)).toNat = y - friendly_die x hand := by omega
  rw [h1, h2, h3]
  refine Finset.sum_congr rfl fun i hi => ?_
  rw [Finset.mem_range] at hi
  by_cases hiy : y - friendly_die x hand ≤ i
  · rw [if_pos (by omega)]
    rw [Finset.filter_true_of_mem (fun j hj => by omega), ← Finset.mul_sum,
      sum_sub_p d (n - hand.length - i) hd, mul_one]
  · rw [if_neg (by omega), Finset.mul_sum]
    apply Finset.sum_congr _ fun j _ => rfl
    ext j
    simp only [Finset.mem_Icc, Finset.mem_filter, Finset.mem_range, Nat.lt_succ_iff]
    omega

lemma predict_probability_nonneg (x y n d : ℕ) (hand : List ℕ) (hd : 2 ≤ d) :
    0 ≤ predict_probability x y n d hand := by
  unfold predict_probability
  by_cases hif : (y : ℤ) - (friendly_die x hand : ℤ) ≤ 0
  · rw [if_pos hif]; norm_num
  · rw [if_neg hif]
    apply Finset.sum_nonneg
    intro i _
    by_cases hiy : (y : ℤ) - (friendly_die x hand : ℤ) ≤ (i : ℤ)
    · rw [if_pos hiy]; exact wildcard_p_nonneg _ _ _ (by omega)
    · rw [if_neg hiy]
      exact mul_nonneg (wildcard_p_nonneg _ _ _ (by omega))
        (Finset.sum_nonneg fun j _ => sub_p_nonneg _ _ _ hd)

lemma predict_probability_le_one (x y n d : ℕ) (hand : List ℕ)
    (hd : 2 ≤ d) (hlen : hand.length ≤ n) :
    predict_probability x y n d hand ≤ 1 := by
  by_cases hfy : friendly_die x hand < y
  · rw [predict_probability_eq_sum_filter x y n d hand hd hlen hfy]
    calc ∑ i in Finset.range (n - hand.length + 1),
          ∑ j in (Finset.range (n - hand.length - i + 1)).filter
              (fun j => y - friendly_die x hand ≤ i + j),
            wildcard_p d (n - hand.length) i * sub_p d (n - hand.length - i) j
        ≤ ∑ i in Finset.range (n - hand.length + 1), wildcard_p d (n - hand.length) i := by
          apply Finset.sum_le_sum
          intro i _
          calc ∑ j in (Finset.range (n - hand.length - i + 1)).filter
                  (fun j => y - friendly_die x hand ≤ i + j),
                wildcard_p d (n - hand.length) i * sub_p d (n - hand.length - i) j
              ≤ ∑ j in Finset.range (n - hand.length - i + 1),
                  wildcard_p d (n - hand.length) i * sub_p d (n - hand.length - i) j := by
                apply Finset.sum_le_sum_of_subset_of_nonneg (Finset.filter_subset _ _)
                intro j _ _
                exact mul_nonneg (wildcard_p_nonneg _ _ _ (by omega)) (sub_p_nonneg _ _ _ hd)
            _ = wildcard_p d (n - hand.length) i := by
                rw [← Finset.mul_sum, sum_sub_p _ _ hd, mul_one]
      _ = 1 := sum_wildcard_p _ _ (by omega)
  · unfold predict_probability
    rw [if_pos (by omega)]

lemma predict_probability_anti (x y₁ y₂ n d : ℕ) (hand : List ℕ)
    (hd : 2 ≤ d) (hlen : hand.length ≤ n) (h12 : y₁ ≤ y₂) :
    predict_probability x y₂ n d hand ≤ predict_probability x y₁ n d hand := by
  by_cases h1 : friendly_die x hand < y₁
  · have h2 : friendly_die x hand < y₂ := lt_of_lt_of_le h1 h12
    rw [predict_probability_eq_sum_filter x y₁ n d hand hd hlen h1,
      predict_probability_eq_sum_filter x y₂ n d hand hd hlen h2]
    apply Finset.sum_le_sum
    intro i _
    apply Finset.sum_le_sum_of_subset_of_nonneg
    · intro j hj
      simp only [Finset.mem_filter, Finset.mem_range] at hj ⊢
      exact ⟨hj.1, by omega⟩
    · intro j _ _
      exact mul_nonneg (wildcard_p_nonneg _ _ _ (by omega)) (sub_p_nonneg _ _ _ hd)
  · have hone : predict_probability x y₁ n d hand = 1 := by
      unfold predict_probability
      rw [if_pos (by omega)]
    rw [hone]
    exact predict_probability_le_one x y₂ n d hand hd hlen

/-! ## Claim theorems for the probability calculator -/

/-- Claim C1: for every valid bid `(x, y)`, config and hand with
`needed = y - friendly > 0`, `predict_probability` equals the two-level
conditioning sum of the specification (`predict_probability_spec`). -/
theorem predict_probability_eq_two_level_conditioning (x y n d : ℕ) (hand : List ℕ)
    (hx2 : 2 ≤ x) (hxd : x ≤ d) (hy1 : 1 ≤ y) (hyn : y ≤ n) (hn : 0 < n) (hd : 3 ≤ d)
    (hhand : ∀ die ∈ hand, 1 ≤ die ∧ die ≤ d) (hlen : hand.length ≤ n)
    (hfy : friendly_die x hand < y) :
    predict_probability x y n d hand = predict_probability_spec x y n d hand := by
  unfold predict_probability predict_probability_spec
  rw [if_neg (by omega)]
  have h1 : (((n : ℤ) - (hand.length : ℤ)) + 1).toNat = n - hand.length + 1 := by omega
  have h2 : ((n : ℤ) - (hand.length : ℤ)).toNat = n - hand.length := by omega
  have h3 : ((y : ℤ) - (friendly_die x hand : ℤ)).toNat = y - friendly_die x hand := by omega
  rw [h1, h2, h3]
  dsimp only
  have hIcc : Finset.Icc 0 (n - hand.length) = Finset.range (n - hand.length + 1) := by
    ext k
    simp [Nat.lt_succ_iff]
  rw [hIcc]
  refine Finset.sum_congr rfl fun i hi => ?_
  by_cases hiy : y - friendly_die x hand ≤ i
  · rw [if_pos (by omega), if_pos hiy, mul_one]
    rfl
  · rw [if_neg (by omega), if_neg hiy]
    rfl

/-- Witness for C1 at the canonical scenario `bid(4, 7)`, `n = 15`, `d = 6`,
`hand = [3, 4, 5, 2, 1]` (`friendly = 2`, `needed = 5 > 0`). -/
theorem predict_probability_eq_two_level_conditioning_witness :
    friendly_die 4 [3, 4, 5, 2, 1] < 7 ∧
      predict_probability 4 7 15 6 [3, 4, 5, 2, 1] =
        predict_probability_spec 4 7 15 6 [3, 4, 5, 2, 1] :=
  ⟨by decide,
    predict_probability_eq_two_level_conditioning 4 7 15 6 [3, 4, 5, 2, 1]
      (by decide) (by decide) (by decide) (by decide) (by decide) (by decide)
      (by decide) (by decide) (by decide)⟩

/-- Claim C5: if the friendly dice of the hand already cover the bid's count
(`needed = y - friendly ≤ 0`), `predict_probability` returns exactly 1. -/
theorem predict_probability_saturation (x y n d : ℕ) (hand : List ℕ)
    (hx2 : 2 ≤ x) (hxd : x ≤ d) (hy1 : 1 ≤ y) (hyn : y ≤ n) (hn : 0 < n) (hd : 3 ≤ d)
    (hhand : ∀ die ∈ hand, 1 ≤ die ∧ die ≤ d) (hlen : hand.length ≤ n)
    (hsat : y ≤ friendly_die x hand) :
    predict_probability x y n d hand = 1 := by
  unfold predict_probability
  rw [if_pos (by omega)]

/-- Witness for C5: `hand = [4, 1, 3, 2, 5]` has two friendly dice for face 4,
so the bid `(4, 2)` is already satisfied. -/
theorem predict_probability_saturation_witness :
    2 ≤ friendly_die 4 [4, 1, 3, 2, 5] ∧ predict_probability 4 2 15 6 [4, 1, 3, 2, 5] = 1 :=
  ⟨by decide,
    predict_probability_saturation 4 2 15 6 [4, 1, 3, 2, 5]
      (by decide) (by decide) (by decide) (by decide) (by decide) (by decide)
      (by decide) (by decide) (by decide)⟩

/-- Claim C6: for every valid bid, config and hand the calculator's value lies
in the closed interval `[0, 1]`. -/
theorem predict_probability_mem_unit_interval (x y n d : ℕ) (hand : List ℕ)
    (hx2 : 2 ≤ x) (hxd : x ≤ d) (hy1 : 1 ≤ y) (hyn : y ≤ n) (hn : 0 < n) (hd : 3 ≤ d)
    (hhand : ∀ die ∈ hand, 1 ≤ die ∧ die ≤ d) (hlen : hand.length ≤ n) :
    predict_probability x y n d hand ∈ Set.Icc (0 : ℚ) 1 :=
  ⟨predict_probability_nonneg x y n d hand (by omega),
    predict_probability_le_one x y n d hand (by omega) hlen⟩

/-- Witness for C6 at the canonical scenario. -/
theorem predict_probability_mem_unit_interval_witness :
    predict_probability 4 7 15 6 [3, 4, 5, 2, 1] ∈ Set.Icc (0 : ℚ) 1 :=
  predict_probability_mem_unit_interval 4 7 15 6 [3, 4, 5, 2, 1]
    (by decide) (by decide) (by decide) (by decide) (by decide) (by decide)
    (by decide) (by decide)

/-- Claim C7: for a fixed face, config and hand, `predict_probability` is
non-increasing in the count. -/
theorem predict_probability_antitone_in_count (x y₁ y₂ n d : ℕ) (hand : List ℕ)
    (hx2 : 2 ≤ x) (hxd : x ≤ d) (hy1 : 1 ≤ y₁) (hyn : y₂ ≤ n) (hn : 0 < n) (hd : 3 ≤ d)
    (hhand : ∀ die ∈ hand, 1 ≤ die ∧ die ≤ d) (hlen : hand.length ≤ n)
    (h12 : y₁ ≤ y₂) :
    predict_probability x y₂ n d hand ≤ predict_probability x y₁ n d hand :=
  predict_probability_anti x y₁ y₂ n d hand (by omega) hlen h12

/-- Witness for C7: counts 7 ≤ 9 at the canonical scenario. -/
theorem predict_probability_antitone_in_count_witness :
    predict_probability 4 9 15 6 [3, 4, 5, 2, 1] ≤ predict_probability 4 7 15 6 [3, 4, 5, 2, 1] :=
  predict_probability_antitone_in_count 4 7 9 15 6 [3, 4, 5, 2, 1]
    (by decide) (by decide) (by decide) (by decide) (by decide) (by decide)
    (by decide) (by decide) (by decide)

/-- Claim C9: when `needed = y - friendly` exceeds the number of unseen dice
`externalCount = n - |hand|`, `predict_probability` returns exactly 0 (every
inner summation range is empty and no wildcard count reaches `needed`). -/
theorem predict_probability_eq_zero_of_needed_gt_external (x y n d : ℕ) (hand : List ℕ)
    (hx2 : 2 ≤ x) (hxd : x ≤ d) (hy1 : 1 ≤ y) (hyn : y ≤ n) (hn : 0 < n) (hd : 3 ≤ d)
    (hhand : ∀ die ∈ hand, 1 ≤ die ∧ die ≤ d) (hlen : hand.length ≤ n)
    (hbig : n - hand.length < y - friendly_die x hand) :
    predict_probability x y n d hand = 0 := by
  unfold predict_probability
  rw [if_neg (by omega)]
  have h1 : (((n : ℤ) - (hand.length : ℤ)) + 1).toNat = n - hand.length + 1 := by omega
  have h2 : ((n : ℤ) - (hand.length : ℤ)).toNat = n - hand.length := by omega
  have h3 : ((y : ℤ) - (friendly_die x hand : ℤ)).toNat = y - friendly_die x hand := by omega
  rw [h1, h2, h3]
  apply Finset.sum_eq_zero
  intro i hi
  rw [Finset.mem_range] at hi
  rw [if_neg (by omega), Finset.Icc_eq_empty (by omega), Finset.sum_empty, mul_zero]

/-- Witness for C9: `bid(4, 13)` with `hand = [3, 4, 5, 2, 1]` needs 11 of the
10 unseen dice. -/
theorem predict_probability_eq_zero_of_needed_gt_external_witness :
    15 - ([3, 4, 5, 2, 1] : List ℕ).length < 13 - friendly_die 4 [3, 4, 5, 2, 1] ∧
      predict_probability 4 13 15 6 [3, 4, 5, 2, 1] = 0 :=
  ⟨by decide,
    predict_probability_eq_zero_of_needed_gt_external 4 13 15 6 [3, 4, 5, 2, 1]
      (by decide) (by decide) (by decide) (by decide) (by decide) (by decide)
      (by decide) (by decide) (by decide)⟩

/-! ## Lemmas about the table builder -/

lemma set_getD_self {α : Type} (t : List α) (i : ℕ) (d : α) (h : i < t.length) :
    t.set i (t.getD i d) = t := by
  rw [List.getD_eq_getElem t d h]
  apply List.ext_getElem
  · simp
  · intro j h1 h2
    rw [List.getElem_set]
    split
    · next heq => subst heq; rfl
    · rfl

/-- Writing `f j` at position `j` for every `j < m` turns the first `m` entries
of a list into `(range m).map f`. -/
lemma foldl_set_range {α : Type} (f : ℕ → α) (l0 : List α) (m : ℕ) (h : m ≤ l0.length) :
    (List.range m).foldl (fun l j => l.set j (f j)) l0 = (List.range m).map f ++ l0.drop m := by
  induction m with
  | zero => simp
  | succ k ih =>
    rw [List.range_succ, List.foldl_append, ih (by omega)]
    simp only [List.foldl_cons, List.foldl_nil]
    have hk : k < l0.length := by omega
    rw [List.set_append]
    simp only [List.length_map, List.length_range, lt_irrefl, if_false, Nat.sub_self]
    rw [List.drop_eq_getElem_cons hk, List.set_cons_zero]
    simp

/-- A fold of `setCell` updates along row `i` only rewrites row `i`. -/
lemma foldl_setCell (g : ℕ → ℚ) (i : ℕ) (js : List ℕ) :
    ∀ (t : List (List ℚ)), i < t.length →
      js.foldl (fun t' j => setCell t' i j (g j)) t =
        t.set i (js.foldl (fun r j => r.set j (g j)) (t.getD i [])) := by
  induction js with
  | nil =>
    intro t ht
    rw [List.foldl_nil, List.foldl_nil, set_getD_self t i [] ht]
  | cons j rest ih =>
    intro t ht
    simp only [List.foldl_cons]
    have hlen : i < (setCell t i j (g j)).length := by
      simp only [setCell, List.length_set]; exact ht
    rw [ih (setCell t i j (g j)) hlen]
    unfold setCell
    rw [List.set_set]
    congr 1
    rw [List.getD_eq_getElem _ _ (by simpa using ht), List.getElem_set_self]

/-- After the first `m` outer iterations of the fill loop the first `m` rows
hold their final values and the remaining rows are still all zeros. -/
lemma fill_table_prefix (n d : ℕ) (g : ℕ → ℕ → ℚ) :
    ∀ m, m ≤ n →
      (List.range m).foldl
        (fun t i => (List.range (d - 1)).foldl (fun t' j => setCell t' i j (g i j)) t)
        (init_table n d) =
      (List.range m).map (fun i => (List.range (d - 1)).map (g i)) ++
        List.replicate (n - m) (List.replicate (d - 1) 0) := by
  intro m
  induction m with
  | zero =>
    intro _
    simp [init_table]
  | succ k ih =>
    intro hk
    rw [List.range_succ, List.foldl_append, ih (by omega)]
    simp only [List.foldl_cons, List.foldl_nil]
    have hT : k < ((List.range k).map (fun i => (List.range (d - 1)).map (g i)) ++
        List.replicate (n - k) (List.replicate (d - 1) (0 : ℚ))).length := by
      simp only [List.length_append, List.length_map, List.length_range, List.length_replicate]
      omega
    rw [foldl_setCell (g k) k (List.range (d - 1)) _ hT]
    have hgd : ((List.range k).map (fun i => (List.range (d - 1)).map (g i)) ++
        List.replicate (n - k) (List.replicate (d - 1) (0 : ℚ))).getD k [] =
        List.replicate (d - 1) (0 : ℚ) := by
      rw [List.getD_eq_getElem _ _ hT,
        List.getElem_append_right (by simp : ((List.range k).map
          (fun i => (List.range (d - 1)).map (g i))).length ≤ k)]
      simp only [List.length_map, List.length_range, Nat.sub_self]
      rw [List.getElem_replicate]
    rw [hgd, foldl_set_range (g k) _ (d - 1) (by simp), List.drop_replicate, Nat.sub_self,
      List.replicate_zero, List.append_nil, List.set_append]
    simp only [List.length_map, List.length_range, lt_irrefl, if_false, Nat.sub_self]
    have hrep : List.replicate (n - k) (List.replicate (d - 1) (0 : ℚ)) =
        List.replicate (d - 1) (0 : ℚ) ::
          List.replicate (n - k - 1) (List.replicate (d - 1) (0 : ℚ)) := by
      rw [← List.replicate_succ]
      congr 1
      omega
    rw [hrep, List.set_cons_zero]
    have hnk : n - k - 1 = n - (k + 1) := by omega
    rw [hnk]
    simp

/-- The imperative fill produces exactly the table of calculator values. -/
lemma fill_table_eq (n d : ℕ) (hand : List ℕ) :
    fill_table n d hand =
      (List.range n).map fun i => (List.range (d - 1)).map fun j =>
        predict_probability (j + 2) (i + 1) n d hand := by
  have h := fill_table_prefix n d
      (fun i j => predict_probability (j + 2) (i + 1) n d hand) n le_rfl
  simp only [Nat.sub_self, List.replicate_zero, List.append_nil] at h
  exact h

/-! ## Claim theorems for the table builder -/

/-- Claim C3: the probability table has exactly `n` rows and `d - 1` columns,
and the cell at row `y - 1`, column `x - 2` holds
`predict_probability x y n d hand` for every count `y ∈ [1, n]` and face
`x ∈ [2, d]`; no cell is left at the initialized default. -/
theorem fill_table_complete (n d : ℕ) (hand : List ℕ) :
    (fill_table n d hand).length = n ∧
    (∀ i, i < n → ((fill_table n d hand).getD i []).length = d - 1) ∧
    (∀ x y, 2 ≤ x → x ≤ d → 1 ≤ y → y ≤ n →
      cellVal (fill_table n d hand) (y - 1, x - 2) = predict_probability x y n d hand) := by
  rw [fill_table_eq]
  refine ⟨by simp, fun i hi => ?_, fun x y hx2 hxd hy1 hyn => ?_⟩
  · rw [List.getD_eq_getElem _ _ (by simpa using hi)]
    simp
  · unfold cellVal
    have hy : y - 1 < n := by omega
    have hx : x - 2 < d - 1 := by omega
    have hrow : ((List.range n).map (fun i => (List.range (d - 1)).map fun j =>
        predict_probability (j + 2) (i + 1) n d hand)).getD (y - 1) [] =
        (List.range (d - 1)).map fun j => predict_probability (j + 2) (y - 1 + 1) n d hand := by
      rw [List.getD_eq_getElem _ _ (by simpa using hy)]
      simp
    rw [hrow, List.getD_eq_getElem _ _ (by simpa using hx)]
    simp only [List.getElem_map, List.getElem_range]
    have h1 : x - 2 + 2 = x := by omega
    have h2 : y - 1 + 1 = y := by omega
    rw [h1, h2]

/-- Witness for C3 at the canonical 15-dice, 6-face game with
`hand = [3, 4, 5, 2, 1]`, looked up at the cell of `bid(4, 7)`. -/
theorem fill_table_complete_witness :
    (fill_table 15 6 [3, 4, 5, 2, 1]).length = 15 ∧
      ((fill_table 15 6 [3, 4, 5, 2, 1]).getD 6 []).length = 5 ∧
      cellVal (fill_table 15 6 [3, 4, 5, 2, 1]) (6, 2) =
        predict_probability 4 7 15 6 [3, 4, 5, 2, 1] :=
  ⟨(fill_table_complete 15 6 [3, 4, 5, 2, 1]).1,
    (fill_table_complete 15 6 [3, 4, 5, 2, 1]).2.1 6 (by decide),
    (fill_table_complete 15 6 [3, 4, 5, 2, 1]).2.2 4 7
      (by decide) (by decide) (by decide) (by decide)⟩

/-- Claim C4: the challenge baseline of the selector is exactly
`1 - predict_probability(prev_x, prev_y, n, d, hand)`. -/
theorem call_probability_complement (prev_x prev_y n d : ℕ) (hand : List ℕ) :
    (compute_optimal_next_move prev_x prev_y n d hand).p_liar =
      1 - predict_probability prev_x prev_y n d hand := rfl

/-! ## Lemmas about the selector -/

/-- Characterization of the strict-improvement scan: starting from state `s`,
the fold either returns `s` untouched (no legal cell strictly beats `s.1`) or
returns the first legal cell attaining the maximal legal value above `s.1`:
all earlier legal cells are strictly below it, all later ones at most it. -/
lemma scan_fold_spec (legal : ℕ × ℕ → Prop) [DecidablePred legal] (v : ℕ × ℕ → ℚ)
    (l : List (ℕ × ℕ)) :
    ∀ s : ℚ × Option (ℕ × ℕ),
      (l.foldl (scan_step legal v) s = s ∧ ∀ c ∈ l, legal c → v c ≤ s.1) ∨
      (∃ pre c post, l = pre ++ c :: post ∧ legal c ∧ s.1 < v c ∧
        l.foldl (scan_step legal v) s = (v c, some (c.2 + 2, c.1 + 1)) ∧
        (∀ c' ∈ pre, legal c' → v c' < v c) ∧
        (∀ c'' ∈ post, legal c'' → v c'' ≤ v c)) := by
  induction l with
  | nil =>
    intro s
    left
    exact ⟨rfl, by simp⟩
  | cons a l ih =>
    intro s
    by_cases ha : s.1 < v a ∧ legal a
    · have hstep : scan_step legal v s a = (v a, some (a.2 + 2, a.1 + 1)) := by
        unfold scan_step
        rw [if_pos ha]
      rcases ih (v a, some (a.2 + 2, a.1 + 1)) with ⟨heq, hall⟩ |
        ⟨pre, c, post, hsplit, hc, hlt, heq, hpre, hpost⟩
      · right
        refine ⟨[], a, l, rfl, ha.2, ha.1, ?_, by simp, fun c hc hl => hall c hc hl⟩
        rw [List.foldl_cons, hstep, heq]
      · right
        refine ⟨a :: pre, c, post, by rw [hsplit, List.cons_append], hc,
          lt_trans ha.1 hlt, ?_, ?_, hpost⟩
        · rw [List.foldl_cons, hstep, heq]
        · intro c' hc' hl'
          rcases List.mem_cons.mp hc' with h | h
          · subst h; exact hlt
          · exact hpre _ h hl'
    · have hstep : scan_step legal v s a = s := by
        unfold scan_step
        rw [if_neg ha]
      have hale : legal a → v a ≤ s.1 := fun hl =>
        le_of_not_lt fun hlt' => ha ⟨hlt', hl⟩
      rcases ih s with ⟨heq, hall⟩ | ⟨pre, c, post, hsplit, hc, hlt, heq, hpre, hpost⟩
      · left
        refine ⟨?_, ?_⟩
        · rw [List.foldl_cons, hstep, heq]
        · intro c hcm hl
          rcases List.mem_cons.mp hcm with h | h
          · subst h; exact hale hl
          · exact hall c h hl
      · right
        refine ⟨a :: pre, c, post, by rw [hsplit, List.cons_append], hc, hlt, ?_, ?_, hpost⟩
        · rw [List.foldl_cons, hstep, heq]
        · intro c' hc' hl'
          rcases List.mem_cons.mp hc' with h | h
          · subst h; exact lt_of_le_of_lt (hale hl') hlt
          · exact hpre _ h hl'

lemma select_step_proj_I (px py : ℕ) (table : List (List ℚ)) (s : SelState) (c : ℕ × ℕ) :
    ((select_step px py table s c).best_I_p, (select_step px py table s c).best_I_act) =
      scan_step (fun c => legal_I px py (c.2 + 2) (c.1 + 1)) (cellVal table)
        (s.best_I_p, s.best_I_act) c := by
  unfold select_step scan_step
  dsimp only
  split_ifs <;> rfl

lemma select_step_proj_II (px py : ℕ) (table : List (List ℚ)) (s : SelState) (c : ℕ × ℕ) :
    ((select_step px py table s c).best_II_p, (select_step px py table s c).best_II_act) =
      scan_step (fun c => legal_II px py (c.2 + 2) (c.1 + 1)) (cellVal table)
        (s.best_II_p, s.best_II_act) c := by
  unfold select_step scan_step
  dsimp only
  split_ifs <;> rfl

lemma select_step_proj_III (px py : ℕ) (table : List (List ℚ)) (s : SelState) (c : ℕ × ℕ) :
    ((select_step px py table s c).best_III_p, (select_step px py table s c).best_III_act) =
      scan_step (fun c => legal_III px py (c.2 + 2) (c.1 + 1)) (cellVal table)
        (s.best_III_p, s.best_III_act) c := by
  unfold select_step scan_step
  dsimp only
  split_ifs <;> rfl

lemma select_fold_proj_I (px py : ℕ) (table : List (List ℚ)) (l : List (ℕ × ℕ)) :
    ∀ s : SelState,
      ((l.foldl (select_step px py table) s).best_I_p,
        (l.foldl (select_step px py table) s).best_I_act) =
      l.foldl (scan_step (fun c => legal_I px py (c.2 + 2) (c.1 + 1)) (cellVal table))
        (s.best_I_p, s.best_I_act) := by
  induction l with
  | nil => intro s; rfl
  | cons c l ih =>
    intro s
    rw [List.foldl_cons, List.foldl_cons, ih (select_step px py table s c),
      select_step_proj_I]

lemma select_fold_proj_II (px py : ℕ) (table : List (List ℚ)) (l : List (ℕ × ℕ)) :
    ∀ s : SelState,
      ((l.foldl (select_step px py table) s).best_II_p,
        (l.foldl (select_step px py table) s).best_II_act) =
      l.foldl (scan_step (fun c => legal_II px py (c.2 + 2) (c.1 + 1)) (cellVal table))
        (s.best_II_p, s.best_II_act) := by
  induction l with
  | nil => intro s; rfl
  | cons c l ih =>
    intro s
    rw [List.foldl_cons, List.foldl_cons, ih (select_step px py table s c),
      select_step_proj_II]

lemma select_fold_proj_III (px py : ℕ) (table : List (List ℚ)) (l : List (ℕ × ℕ)) :
    ∀ s : SelState,
      ((l.foldl (select_step px py table) s).best_III_p,
        (l.foldl (select_step px py table) s).best_III_act) =
      l.foldl (scan_step (fun c => legal_III px py (c.2 + 2) (c.1 + 1)) (cellVal table))
        (s.best_III_p, s.best_III_act) := by
  induction l with
  | nil => intro s; rfl
  | cons c l ih =>
    intro s
    rw [List.foldl_cons, List.foldl_cons, ih (select_step px py table s c),
      select_step_proj_III]

/-- What one policy's final result must look like: either the unmodified
challenge baseline (no legal cell strictly exceeds it), or the
first-encountered highest-probability legal cell, recorded as the bid
`(j + 2, i + 1)` with its probability. -/
def mode_result_ok (legal : ℕ × ℕ → Prop) (table : List (List ℚ)) (baseline : ℚ)
    (best_p : ℚ) (best_act : Option (ℕ × ℕ)) : Prop :=
  (best_p = baseline ∧ best_act = none ∧
    ∀ c ∈ cell_indices table, legal c → cellVal table c ≤ baseline) ∨
  (∃ pre c post, cell_indices table = pre ++ c :: post ∧ legal c ∧
    baseline < cellVal table c ∧
    best_p = cellVal table c ∧ best_act = some (c.2 + 2, c.1 + 1) ∧
    (∀ c' ∈ pre, legal c' → cellVal table c' < cellVal table c) ∧
    (∀ c'' ∈ post, legal c'' → cellVal table c'' ≤ cellVal table c))

lemma mode_result_of_proj (legal : ℕ × ℕ → Prop) [DecidablePred legal]
    (table : List (List ℚ)) (baseline best_p : ℚ) (best_act : Option (ℕ × ℕ))
    (hproj : (best_p, best_act) =
      (cell_indices table).foldl (scan_step legal (cellVal table)) (baseline, none)) :
    mode_result_ok legal table baseline best_p best_act := by
  rcases scan_fold_spec legal (cellVal table) (cell_indices table) (baseline, none) with
    ⟨heq, hall⟩ | ⟨pre, c, post, hsplit, hc, hlt, heq, hpre, hpost⟩
  · left
    have h := hproj.trans heq
    exact ⟨congrArg Prod.fst h, congrArg Prod.snd h, hall⟩
  · right
    have h := hproj.trans heq
    exact ⟨pre, c, post, hsplit, hc, hlt, congrArg Prod.fst h, congrArg Prod.snd h,
      hpre, hpost⟩

/-! ## Claim theorem for the selector -/

/-- Claim C2: under each of the three legality policies the selector's result
starts from the challenge baseline at `p_liar` and is replaced only by cells
that strictly exceed the current best and are legal, scanned in row-major
order; hence each policy's final `(best_p, best_act)` is either the unmodified
baseline or the first-encountered highest-probability legal bid. -/
theorem select_best_baseline_or_first_max (prev_x prev_y n d : ℕ) (hand : List ℕ) :
    mode_result_ok (fun c => legal_I prev_x prev_y (c.2 + 2) (c.1 + 1))
      (compute_optimal_next_move prev_x prev_y n d hand).table
      (compute_optimal_next_move prev_x prev_y n d hand).p_liar
      (compute_optimal_next_move prev_x prev_y n d hand).sel.best_I_p
      (compute_optimal_next_move prev_x prev_y n d hand).sel.best_I_act ∧
    mode_result_ok (fun c => legal_II prev_x prev_y (c.2 + 2) (c.1 + 1))
      (compute_optimal_next_move prev_x prev_y n d hand).table
      (compute_optimal_next_move prev_x prev_y n d hand).p_liar
      (compute_optimal_next_move prev_x prev_y n d hand).sel.best_II_p
      (compute_optimal_next_move prev_x prev_y n d hand).sel.best_II_act ∧
    mode_result_ok (fun c => legal_III prev_x prev_y (c.2 + 2) (c.1 + 1))
      (compute_optimal_next_move prev_x prev_y n d hand).table
      (compute_optimal_next_move prev_x prev_y n d hand).p_liar
      (compute_optimal_next_move prev_x prev_y n d hand).sel.best_III_p
      (compute_optimal_next_move prev_x prev_y n d hand).sel.best_III_act := by
  refine ⟨mode_result_of_proj _ _ _ _ _ ?_, mode_result_of_proj _ _ _ _ _ ?_,
    mode_result_of_proj _ _ _ _ _ ?_⟩
  · exact select_fold_proj_I prev_x prev_y (fill_table n d hand)
      (cell_indices (fill_table n d hand))
      ⟨1 - predict_probability prev_x prev_y n d hand, none,
        1 - predict_probability prev_x prev_y n d hand, none,
        1 - predict_probability prev_x prev_y n d hand, none⟩
  · exact select_fold_proj_II prev_x prev_y (fill_table n d hand)
      (cell_indices (fill_table n d hand))
      ⟨1 - predict_probability prev_x prev_y n d hand, none,
        1 - predict_probability prev_x prev_y n d hand, none,
        1 - predict_probability prev_x prev_y n d hand, none⟩
  · exact select_fold_proj_III prev_x prev_y (fill_table n d hand)
      (cell_indices (fill_table n d hand))
      ⟨1 - predict_probability prev_x prev_y n d hand, none,
        1 - predict_probability prev_x prev_y n d hand, none,
        1 - predict_probability prev_x prev_y n d hand, none⟩

/-! ## Claim theorems for the legality partition (C8) -/

/-- Counterexample to claim C8 as stated: at the maximal previous bid
`(prev_x, prev_y) = (6, 15)` in the canonical 15-dice, 6-face game, no cell is
legal in any mode, so Mode III's satisfying set (empty) is not a *strict*
subset of Mode I's or Mode II's (also empty). -/
theorem modeIII_not_ssubset_at_maximal_bid :
    modeCells_III 15 6 6 15 = ∅ ∧
      ¬ (modeCells_III 15 6 6 15 ⊂ modeCells_I 15 6 6 15) ∧
      ¬ (modeCells_III 15 6 6 15 ⊂ modeCells_II 15 6 6 15) := by decide

/-- Claim C8 amended: for a previous bid that is maximal in neither coordinate
(`prev_x < faceCount` and `prev_y < totalDice`), Mode III's satisfying set is a
strict subset of both Mode I's and Mode II's satisfying sets (the inclusion
itself needs no side condition). -/
theorem modeIII_ssubset_of_nonmaximal (n d px py : ℕ) (hx2 : 2 ≤ px) (hxd : px < d)
    (hy1 : 1 ≤ py) (hyn : py < n) :
    modeCells_III n d px py ⊂ modeCells_I n d px py ∧
      modeCells_III n d px py ⊂ modeCells_II n d px py := by
  have hsubI : modeCells_III n d px py ⊆ modeCells_I n d px py := by
    intro c hc
    simp only [modeCells_III, modeCells_I, Finset.mem_filter] at hc ⊢
    refine ⟨hc.1, ?_⟩
    have := hc.2
    unfold legal_III at this
    unfold legal_I
    omega
  have hsubII : modeCells_III n d px py ⊆ modeCells_II n d px py := by
    intro c hc
    simp only [modeCells_III, modeCells_II, Finset.mem_filter] at hc ⊢
    refine ⟨hc.1, ?_⟩
    have := hc.2
    unfold legal_III at this
    unfold legal_II
    omega
  have hmemI : (py + 1, px + 1) ∈ modeCells_I n d px py := by
    simp only [modeCells_I, bid_domain, Finset.mem_filter, Finset.mem_product, Finset.mem_Icc]
    refine ⟨⟨⟨by omega, by omega⟩, by omega, by omega⟩, ?_⟩
    unfold legal_I
    omega
  have hmemII : (py + 1, px + 1) ∈ modeCells_II n d px py := by
    simp only [modeCells_II, bid_domain, Finset.mem_filter, Finset.mem_product, Finset.mem_Icc]
    refine ⟨⟨⟨by omega, by omega⟩, by omega, by omega⟩, ?_⟩
    unfold legal_II
    omega
  have hnot : (py + 1, px + 1) ∉ modeCells_III n d px py := by
    simp only [modeCells_III, Finset.mem_filter]
    intro h
    have := h.2
    unfold legal_III at this
    omega
  exact ⟨(Finset.ssubset_iff_of_subset hsubI).mpr ⟨_, hmemI, hnot⟩,
    (Finset.ssubset_iff_of_subset hsubII).mpr ⟨_, hmemII, hnot⟩⟩

/-- Witness for the amended C8 at the canonical previous bid `(4, 7)` with
`n = 15`, `d = 6`. -/
theorem modeIII_ssubset_of_nonmaximal_witness :
    modeCells_III 15 6 4 7 ⊂ modeCells_I 15 6 4 7 ∧
      modeCells_III 15 6 4 7 ⊂ modeCells_II 15 6 4 7 :=
  modeIII_ssubset_of_nonmaximal 15 6 4 7 (by decide) (by decide) (by decide) (by decide)

/-! ## Claim theorems for the simulator's bucket indexing (C10) -/

lemma trial_step_some (x : ℕ) (ext_y : ℤ) (st : ℕ × List ℕ) (dice : List ℕ)
    (hlen : dice.length ≤ 9) (hst : st.2.length = 10) :
    ∃ st' : ℕ × List ℕ, trial_step x ext_y (some st) dice = some st' ∧ st'.2.length = 10 := by
  unfold trial_step
  rw [Option.some_bind]
  dsimp only
  have hwc : (dice.filter (fun die => die == wildcard_value)).length ≤ 9 :=
    le_trans (List.length_filter_le _ _) hlen
  by_cases hsucc : ext_y ≤ ((dice.filter (fun die => die == x)).length : ℤ) +
      ((dice.filter (fun die => die == wildcard_value)).length : ℤ)
  · rw [if_pos hsucc, if_pos (by omega)]
    exact ⟨_, rfl, by simp [hst]⟩
  · rw [if_neg hsucc]
    exact ⟨st, rfl, hst⟩

lemma run_trials_fold_some (x : ℕ) (ext_y : ℤ) :
    ∀ (trials : List (List ℕ)), (∀ t ∈ trials, t.length ≤ 9) →
      ∀ st : ℕ × List ℕ, st.2.length = 10 →
      ∃ res : ℕ × List ℕ,
        trials.foldl (trial_step x ext_y) (some st) = some res ∧ res.2.length = 10 := by
  intro trials
  induction trials with
  | nil =>
    intro _ st hst
    exact ⟨st, rfl, hst⟩
  | cons t rest ih =>
    intro hts st hst
    obtain ⟨st', h1, h2⟩ := trial_step_some x ext_y st t (hts t (by simp)) hst
    rw [List.foldl_cons, h1]
    exact ih (fun u hu => hts u (by simp [hu])) st' h2

/-- Counterexample to claim C10 as stated: with `bid(2, 1)`, `n = 15`, `d = 6`,
`hand = [3, 4, 5, 6, 6]` (no friendly die, `externalCount = 10`) and a trial in
which all ten external dice roll the wildcard face, the successful trial has
`wildcard_count = 10` and the update `wildcard_buckets[10] += 1` falls outside
the 10-element bucket list (`IndexError`), modelled as `none`. -/
theorem simulate_probability_bucket_overflow :
    (∀ t ∈ [List.replicate 10 1], t.length = 15 - ([3, 4, 5, 6, 6] : List ℕ).length ∧
        ∀ die ∈ t, 1 ≤ die ∧ die ≤ 6) ∧
      simulate_probability 2 1 15 6 [3, 4, 5, 6, 6] [List.replicate 10 1] = none :=
  ⟨by decide, rfl⟩

/-- Claim C10 amended: when `externalCount = n - |hand| ≤ 9`, every per-trial
wildcard-count bucket update indexes within the 10-element `wildcard_buckets`
list, so `simulate_probability` completes on every possible sequence of rolls. -/
theorem simulate_probability_safe_of_small_external (x y n d : ℕ) (hand : List ℕ)
    (trials : List (List ℕ))
    (hx2 : 2 ≤ x) (hxd : x ≤ d) (hy1 : 1 ≤ y) (hyn : y ≤ n) (hlen : hand.length ≤ n)
    (hsmall : n - hand.length ≤ 9)
    (htr : ∀ t ∈ trials, t.length = n - hand.length ∧ ∀ die ∈ t, 1 ≤ die ∧ die ≤ d) :
    (simulate_probability x y n d hand trials).isSome := by
  unfold simulate_probability
  by_cases hsat : (y : ℤ) - (friendly_die x hand : ℤ) ≤ 0
  · rw [if_pos hsat]
    rfl
  · rw [if_neg hsat]
    obtain ⟨res, hres, _⟩ := run_trials_fold_some x ((y : ℤ) - (friendly_die x hand : ℤ))
      trials (fun t ht => by have := (htr t ht).1; omega) (0, List.replicate 10 0) (by simp)
    unfold run_trials
    rw [hres]
    rfl

/-- Witness for the amended C10: `bid(2, 1)`, `n = 10`, `d = 6`, `hand = [4]`
(`externalCount = 9`), one all-wildcard trial. -/
theorem simulate_probability_safe_of_small_external_witness :
    (simulate_probability 2 1 10 6 [4] [List.replicate 9 1]).isSome :=
  simulate_probability_safe_of_small_external 2 1 10 6 [4] [List.replicate 9 1]
    (by decide) (by decide) (by decide) (by decide) (by decide) (by decide) (by decide)
